import Mathlib

set_option maxRecDepth 100000

/-!
Verification development for the wallet-watcher repository.

The repository is a Telegram wallet-tracking bot: users subscribe to
(chain, address) pairs (`/track`, `/untrack` in `src/services/bot.service.js`),
subscriptions are stored as `TrackedWallet` documents (mongoose schema in
`src/models/index.js`), an external Moralis stream is kept per tracked wallet
(`src/services/moralis.service.js`), and a webhook service receives Moralis
transaction events, verifies an HMAC signature, and fans alerts out to the
subscribers of the affected wallets (`webhook.service.js`, rendered through
`src/utils/formatters.js`).

This file is a shallow embedding of that logic:

* JS `BigInt` arithmetic is embedded as `Int` with truncated division
  (`Int.tdiv` / `Int.tmod`), string conversion via `toString`.
* The `formatValue` helper of `src/utils/formatters.js` and the message
  formatters are embedded as pure string functions.
* The MongoDB `TrackedWallet` collection is embedded as a `List Wallet`,
  `findOne` as `List.find?` on the (address, chainTicker) key, `save` as an
  in-place replacement of the found document and `deleteOne` as removal.
* The `/track` and `/untrack` handlers are embedded as state transformers
  which additionally report the calls made to the external Moralis stream
  API (create / delete), with the outcomes of those external calls supplied
  as oracle inputs.
* The webhook dispatcher is embedded with a smallintegral JSON model: a `Json`
  value type, a `stringify` following `JSON.stringify` (compact output, key
  order preserved) and a fuel-indexed parser for the body bytes, plus an
  executable HMAC-SHA256 over UTF-8 bytes mirroring node `crypto`.
-/
/-! ## Small string helpers (JS semantics) -/
/-- Drop trailing `'0'` characters — the effect of the JS
`replace(/0+$/, '')` used in `formatValue`. -/
def dropTrailingZeros (s : String) : String :=
  String.mk ((s.data.reverse.dropWhile (fun c => c = '0')).reverse)

/-- JS `String.prototype.padStart(n, '0')`: left-pad with `'0'` up to length
`n` (no truncation when already long enough). -/
def padStartZeros (s : String) (n : Nat) : String :=
  String.mk (List.replicate (n - s.length) '0' ++ s.data)

/-- JS `String.prototype.slice(0, n)` for a nonnegative `n`. -/
def takeChars (n : Nat) (s : String) : String :=
  String.mk (s.data.take n)

/-- ASCII lowercasing (JS `toLowerCase` restricted to ASCII, which is all
the handlers ever lowercase: hex/base58 addresses).  `String.toLower` of
core is position-recursive and does not reduce in the kernel, hence this
character-list variant. -/
def toLowerStr (s : String) : String :=
  String.mk (s.data.map Char.toLower)

/-! ## JS `BigInt` conversion model

`BigInt(string)` (ECMA-262 `StringToBigInt`): leading and trailing white
space is stripped; the empty remainder denotes `0`; otherwise an optional
sign followed by decimal digits, or an unsigned `0x` / `0o` / `0b` prefixed
numeral, is accepted; anything else throws a `SyntaxError`.  The embedding
returns `none` where the JS conversion throws. -/
def isJsWhitespace (c : Char) : Bool :=
  c = ' ' || c = '\t' || c = '\n' || c = '\r' || c = '\x0b' || c = '\x0c'

def digitVal (c : Char) : Option Nat :=
  if '0' ≤ c ∧ c ≤ '9' then some (c.toNat - '0'.toNat) else none

def hexDigitVal (c : Char) : Option Nat :=
  if '0' ≤ c ∧ c ≤ '9' then some (c.toNat - '0'.toNat)
  else if 'a' ≤ c ∧ c ≤ 'f' then some (c.toNat - 'a'.toNat + 10)
  else if 'A' ≤ c ∧ c ≤ 'F' then some (c.toNat - 'A'.toNat + 10)
  else none

/-- Accumulator loop for reading an unsigned numeral in base `b`. -/
def readDigitsAux (b : Nat) (acc : Nat) : List Char → Option Nat
  | [] => some acc
  | c :: rest =>
    match hexDigitVal c with
    | some d => if d < b then readDigitsAux b (acc * b + d) rest else none
    | none => none

/-- Read an unsigned numeral in base `b` (digits checked against `b`); an
empty digit sequence is rejected. -/
def readDigitsBase (b : Nat) : List Char → Option Nat
  | [] => none
  | cs => readDigitsAux b 0 cs

/-- `StringToBigInt` on the trimmed character list. -/
def jsBigIntOfTrimmed : List Char → Option Int
  | [] => some 0
  | '+' :: rest => (readDigitsBase 10 rest).map Int.ofNat
  | '-' :: rest => (readDigitsBase 10 rest).map (fun n => -(Int.ofNat n))
  | '0' :: 'x' :: rest => (readDigitsBase 16 rest).map Int.ofNat
  | '0' :: 'X' :: rest => (readDigitsBase 16 rest).map Int.ofNat
  | '0' :: 'o' :: rest => (readDigitsBase 8 rest).map Int.ofNat
  | '0' :: 'O' :: rest => (readDigitsBase 8 rest).map Int.ofNat
  | '0' :: 'b' :: rest => (readDigitsBase 2 rest).map Int.ofNat
  | '0' :: 'B' :: rest => (readDigitsBase 2 rest).map Int.ofNat
  | cs => (readDigitsBase 10 cs).map Int.ofNat

/-- JS `BigInt(value)` for a string argument; `none` models the thrown
`SyntaxError`. -/
def jsParseBigInt (s : String) : Option Int :=
  jsBigIntOfTrimmed ((s.data.dropWhile isJsWhitespace).reverse.dropWhile isJsWhitespace).reverse

/-! ## The JS double `10 ** decimals`

`formatValue` divides by `BigInt(10 ** decimals)` where `10 ** decimals` is
floating-point.  For `0 ≤ decimals ≤ 22` the power is an exactly
representable double, so the divisor is exactly `10 ^ decimals`; from 23 to
308 the double is an approximation (modelled here as the correctly rounded
value, round-to-nearest ties-to-even to 53 significand bits — ECMA-262
leaves `**` implementation-approximated, so theorems below only rely on the
exact range); for negative exponents the power is fractional and `BigInt`
throws, and from 309 on it overflows to `Infinity` and `BigInt` throws. -/
/-- Fuel-driven bit length (`Nat.log2` is well-founded and does not reduce
in the kernel, so a structural variant is used instead). -/
def bitLenFuel : Nat → Nat → Nat
  | 0, _ => 0
  | fuel + 1, n => if n = 0 then 0 else 1 + bitLenFuel fuel (n / 2)

/-- Number of binary digits of `n` (0 for 0). -/
def bitLen (n : Nat) : Nat := bitLenFuel n n

/-- Round a positive integer to 53 significand bits, ties to even — the
value of the nearest double. -/
def roundToDouble (n : Nat) : Nat :=
  if n < 2 ^ 53 then n
  else
    let k := bitLen n - 53
    let q := n / 2 ^ k
    let r := n % 2 ^ k
    let half := 2 ^ (k - 1)
    let q' := if half < r ∨ (r = half ∧ q % 2 = 1) then q + 1 else q
    q' * 2 ^ k

/-- JS `BigInt(10 ** d)`; `none` models the thrown error (fractional value
for `d < 0`, `Infinity` for `d ≥ 309`). -/
def jsPow10 (d : Int) : Option Int :=
  if d < 0 then none
  else if 309 ≤ d then none
  else some (Int.ofNat (roundToDouble (10 ^ d.toNat)))

/-! ## `formatValue` (src/utils/formatters.js lines 7–29)

```js
export function formatValue(value, decimals = 18) {
  try {
    const amount = BigInt(value) / BigInt(10 ** decimals);
    const remainder = BigInt(value) % BigInt(10 ** decimals);
    const decimalPart = remainder.toString().padStart(decimals, '0');
    if (amount === 0n && remainder === 0n) { return '0'; }
    const amountStr = amount.toString();
    const decimalStr = decimalPart.slice(0, 8).replace(/0+$/, '');
    if (decimalStr) { return `...`; }
    return amountStr;
  } catch (error) { return '0'; }
}
```

`formatValueCore` returns `none` exactly where the JS body throws (bad
`BigInt` conversion of `value`, bad conversion of `10 ** decimals`, or a
division by zero, which the power can in fact never produce); `formatValue`
adds the `catch` that turns a throw into `"0"`. -/
def formatValueCore (value : String) (decimals : Int) : Option String :=
  match jsParseBigInt value, jsPow10 decimals with
  | some v, some p =>
    if p = 0 then none
    else
      let amount := Int.tdiv v p
      let remainder := Int.tmod v p
      let decimalPart := padStartZeros (toString remainder) decimals.toNat
      if amount = 0 ∧ remainder = 0 then some "0"
      else
        let amountStr := toString amount
        let decimalStr := dropTrailingZeros (takeChars 8 decimalPart)
        if decimalStr ≠ "" then some (amountStr ++ "." ++ decimalStr)
        else some amountStr
  | _, _ => none

def formatValue (value : String) (decimals : Int) : String :=
  (formatValueCore value decimals).getD "0"

/-! Spec-side renderings (§4.4 / §8 of the spec), used to compare
`formatValue` against its specification. -/
/-- Modelled from the spec: the exact decimal rendering of
`v / 10 ^ d` using arbitrary-precision integers — integer part in decimal,
then the `d` fractional digits (the zero-padded decimal of `v % 10 ^ d`)
with trailing zeros trimmed, the fractional part dropped entirely when it
is zero. -/
def specExactRendering (v : Nat) (d : Nat) : String :=
  let q := v / 10 ^ d
  let r := v % 10 ^ d
  let fracFull := padStartZeros (toString r) d
  let frac := dropTrailingZeros fracFull
  if frac = "" then toString q else toString q ++ "." ++ frac

/-- The exact decimal rendering of `v / 10 ^ d` with the fractional part
truncated to its first 8 digits before trailing zeros are trimmed — what
`formatValue` actually produces on the exact-double range. -/
def specTrunc8Rendering (v : Nat) (d : Nat) : String :=
  let q := v / 10 ^ d
  let r := v % 10 ^ d
  let fracFull := padStartZeros (toString r) d
  let frac := dropTrailingZeros (takeChars 8 fracFull)
  if frac = "" then toString q else toString q ++ "." ++ frac

/-! ## The `TrackedWallet` store (src/models/index.js, trackedWalletSchema)

A document holds the lowercased address, the uppercase chain ticker, an
optional alias, the list of subscriber Telegram ids and the Moralis stream
id.  The compound (address, chainTicker) index is unique; the embedding
keeps the collection as a list and proves key-uniqueness as an invariant of
the reachable states. -/
structure Wallet where
  address : String
  chainTicker : String
  walletAlias : Option String
  trackingUserIds : List Int
  moralisStreamId : Option String
deriving DecidableEq

/-- The compound (address, chainTicker) key test used by every store query. -/
def isKey (c key : String) (w : Wallet) : Bool :=
  w.address == key && w.chainTicker == c

/-- `TrackedWallet.findOne({address, chainTicker})` — first document whose
compound key matches. -/
def findWallet (st : List Wallet) (c key : String) : Option Wallet :=
  st.find? (isKey c key)

/-- `wallet.save()` on a document obtained from `findOne`: replace the first
document with the matching key. -/
def replaceFirst (c key : String) (w' : Wallet) : List Wallet → List Wallet
  | [] => []
  | x :: xs =>
    if isKey c key x then w' :: xs
    else x :: replaceFirst c key w' xs

/-- `TrackedWallet.deleteOne({_id: wallet._id})` on the document obtained
from `findOne`: remove the first document with the matching key. -/
def removeFirst (c key : String) : List Wallet → List Wallet
  | [] => []
  | x :: xs =>
    if isKey c key x then xs
    else x :: removeFirst c key xs

/-! ## `/track` (src/services/bot.service.js lines 113–265)

After validation the handler looks the wallet up by
`(normalizedAddress.toLowerCase(), chainTicker)`.  If it exists and the
user is already in `trackingUserIds` nothing changes; if it exists without
the user, the user id is pushed and the document saved.  If it does not
exist, `moralisService.createStream` is called FIRST; a `null` response
aborts with an error message and no document is written; on success a new
document is created with `trackingUserIds = [userId]` and
`moralisStreamId = streamData.id`.

The outcome of the external Moralis call is an oracle input
(`streamResp`); `streamCalls` records the create requests issued. -/
inductive TrackOutcome where
  | unsupportedChain
  | alreadyTracking
  | addedExisting
  | streamFailed
  | createdNew
deriving DecidableEq

structure TrackResult where
  store : List Wallet
  outcome : TrackOutcome
  streamCalls : List (String × String)
deriving DecidableEq

def track (supported : List String) (streamResp : Option String) (u : Int)
    (c aNorm : String) (al : Option String) (st : List Wallet) : TrackResult :=
  if supported.contains c = false then ⟨st, .unsupportedChain, []⟩
  else
    let key := toLowerStr aNorm
    match findWallet st c key with
    | some w =>
      if w.trackingUserIds.contains u then ⟨st, .alreadyTracking, []⟩
      else
        ⟨replaceFirst c key { w with trackingUserIds := w.trackingUserIds ++ [u] } st,
          .addedExisting, []⟩
    | none =>
      match streamResp with
      | none => ⟨st, .streamFailed, [(aNorm, c)]⟩
      | some sid =>
        ⟨st ++ [⟨key, c, al, [u], some sid⟩], .createdNew, [(aNorm, c)]⟩

/-! ## `/untrack` (src/services/bot.service.js lines 297–383)

The handler validates the address (which also rejects unsupported chains),
looks the wallet up by the lowercased key, and aborts when the wallet is
missing or the user is not in `trackingUserIds`.  Otherwise the user is
filtered out; when the remaining list is empty the handler first calls
`moralisService.deleteStream(wallet.moralisStreamId, chainTicker === 'SOL')`
(when a stream id is stored) and then deletes the document; when
subscribers remain it saves the shrunken document.

`deleteStream` wraps its HTTP call in try/catch and returns a boolean, so
the external outcome (`deleteOk`) can never abort the handler: the local
removal below does not depend on it.  `deleteCalls` records the issued
stream-release requests as (streamId, isSolana) pairs. -/
inductive UntrackOutcome where
  | invalidAddress
  | notTracking
  | removedKept
  | removedDeleted
deriving DecidableEq

structure UntrackResult where
  store : List Wallet
  outcome : UntrackOutcome
  deleteCalls : List (String × Bool)
deriving DecidableEq

def untrack (supported : List String) (deleteOk : Bool) (u : Int)
    (c aNorm : String) (st : List Wallet) : UntrackResult :=
  if supported.contains c = false then ⟨st, .invalidAddress, []⟩
  else
    let key := toLowerStr aNorm
    match findWallet st c key with
    | none => ⟨st, .notTracking, []⟩
    | some w =>
      if w.trackingUserIds.contains u = false then ⟨st, .notTracking, []⟩
      else
        let remaining := w.trackingUserIds.filter (fun i => i ≠ u)
        if remaining = [] then
          let calls := match w.moralisStreamId with
            | some sid => [(sid, c == "SOL")]
            | none => []
          ⟨removeFirst c key st, .removedDeleted, calls⟩
        else
          ⟨replaceFirst c key { w with trackingUserIds := remaining } st,
            .removedKept, []⟩

/-! ## Operation sequences -/
inductive Op where
  | trk (u : Int) (c a : String) (al : Option String) (streamResp : Option String)
  | untrk (u : Int) (c a : String) (deleteOk : Bool)

/-- One user command applied to the store (external-call outcomes carried
inside the operation). -/
def stepOp (supported : List String) (st : List Wallet) : Op → List Wallet
  | .trk u c a al r => (track supported r u c a al st).store
  | .untrk u c a d => (untrack supported d u c a st).store

/-- The store after a sequence of commands, starting empty. -/
def runOps (supported : List String) (ops : List Op) : List Wallet :=
  ops.foldl (stepOp supported) []

/-! ## Store invariants

The invariants every store reachable from the empty collection satisfies:
non-empty subscriber lists (claim of §3), a non-null Moralis stream id
(streams are provisioned before the document is written), a supported chain
ticker, and at most one document per compound key (the unique index of
`trackedWalletSchema`). -/
def keyDistinct (w1 w2 : Wallet) : Prop :=
  ¬ (w1.address = w2.address ∧ w1.chainTicker = w2.chainTicker)

def goodWallet (supported : List String) (w : Wallet) : Prop :=
  w.trackingUserIds ≠ [] ∧ w.moralisStreamId ≠ none ∧
    supported.contains w.chainTicker = true

def goodStore (supported : List String) (st : List Wallet) : Prop :=
  (∀ w ∈ st, goodWallet supported w) ∧ st.Pairwise keyDistinct

/-- Number of documents sharing one compound key (the unique index from
`trackedWalletSchema.index({address: 1, chainTicker: 1}, {unique: true})`
demands this never exceeds 1). -/
def countKey (st : List Wallet) (c key : String) : Nat :=
  (st.filter (isKey c key)).length

/-! ## JSON model for the webhook dispatcher

`express.json()` parses the received body bytes into a JS value and
`verifyWebhookSignature` re-serializes that value with `JSON.stringify`.
The embedding models JSON values with integer numbers only (every numeric
payload field this service reads — `value`, `gas`, `gasPrice`,
`tokenDecimals` — arrives as a decimal string from Moralis), `stringify`
follows `JSON.stringify` (compact output, key order preserved, standard
escapes) and the parser is fuel-indexed (fuel exhaustion yields `none`,
which concrete inputs never hit). -/
inductive Json where
  | null
  | bool (b : Bool)
  | num (n : Int)
  | str (s : String)
  | arr (xs : List Json)
  | obj (fs : List (String × Json))

def hexDigitChar (n : Nat) : Char :=
  (("0123456789abcdef".data).getD n '0')

/-- `JSON.stringify` escaping for one character. -/
def escapeJsonChar (c : Char) : List Char :=
  if c = '"' then ['\\', '"']
  else if c = '\\' then ['\\', '\\']
  else if c = '\n' then ['\\', 'n']
  else if c = '\r' then ['\\', 'r']
  else if c = '\t' then ['\\', 't']
  else if c = '\x08' then ['\\', 'b']
  else if c = '\x0c' then ['\\', 'f']
  else if c.toNat < 32 then
    ['\\', 'u', '0', '0', hexDigitChar (c.toNat / 16), hexDigitChar (c.toNat % 16)]
  else [c]

def escapeJsonString (s : String) : String :=
  String.mk (s.data.flatMap escapeJsonChar)

mutual

def Json.stringify : Json → String
  | .null => "null"
  | .bool true => "true"
  | .bool false => "false"
  | .num n => toString n
  | .str s => "\"" ++ escapeJsonString s ++ "\""
  | .arr xs => "[" ++ stringifyElems xs ++ "]"
  | .obj fs => "\x7b" ++ stringifyMembers fs ++ "\x7d"

def stringifyElems : List Json → String
  | [] => ""
  | [x] => Json.stringify x
  | x :: y :: xs => Json.stringify x ++ "," ++ stringifyElems (y :: xs)

def stringifyMembers : List (String × Json) → String
  | [] => ""
  | [(k, v)] => "\"" ++ escapeJsonString k ++ "\":" ++ Json.stringify v
  | (k, v) :: m :: xs =>
    "\"" ++ escapeJsonString k ++ "\":" ++ Json.stringify v ++ "," ++
      stringifyMembers (m :: xs)

end

def isJsonWs (c : Char) : Bool :=
  c = ' ' || c = '\t' || c = '\n' || c = '\r'

def jpSkipWs (cs : List Char) : List Char := cs.dropWhile isJsonWs

def isDigitChar (c : Char) : Bool := '0' ≤ c && c ≤ '9'

/-- Body of a JSON string literal (after the opening quote): content and
rest.  Common escapes are supported; `\uXXXX` is not (inputs here are
plain ASCII). -/
def jpStringBody : Nat → List Char → Option (List Char × List Char)
  | 0, _ => none
  | _ + 1, [] => none
  | fuel + 1, c :: rest =>
    if c = '"' then some ([], rest)
    else if c = '\\' then
      match rest with
      | [] => none
      | e :: rest2 =>
        let esc : Option Char :=
          if e = '"' then some '"'
          else if e = '\\' then some '\\'
          else if e = '/' then some '/'
          else if e = 'n' then some '\n'
          else if e = 't' then some '\t'
          else if e = 'r' then some '\r'
          else if e = 'b' then some '\x08'
          else if e = 'f' then some '\x0c'
          else none
        match esc with
        | some ch => (jpStringBody fuel rest2).map (fun p => (ch :: p.1, p.2))
        | none => none
    else (jpStringBody fuel rest).map (fun p => (c :: p.1, p.2))

/-- An integer JSON number: optional minus, then decimal digits. -/
def jpNumber (cs : List Char) : Option (Json × List Char) :=
  match cs with
  | '-' :: rest =>
    let ds := rest.takeWhile isDigitChar
    match readDigitsBase 10 ds with
    | some n => some (.num (-(Int.ofNat n)), rest.dropWhile isDigitChar)
    | none => none
  | _ =>
    let ds := cs.takeWhile isDigitChar
    match readDigitsBase 10 ds with
    | some n => some (.num (Int.ofNat n), cs.dropWhile isDigitChar)
    | none => none

mutual

def jpValue : Nat → List Char → Option (Json × List Char)
  | 0, _ => none
  | fuel + 1, cs =>
    match jpSkipWs cs with
    | [] => none
    | c :: rest =>
      if c = '"' then
        (jpStringBody fuel rest).map (fun p => (.str (String.mk p.1), p.2))
      else if c = '\x7b' then
        match jpSkipWs rest with
        | '\x7d' :: rest2 => some (.obj [], rest2)
        | _ => (jpMembers fuel rest).map (fun p => (.obj p.1, p.2))
      else if c = '[' then
        match jpSkipWs rest with
        | ']' :: rest2 => some (.arr [], rest2)
        | _ => (jpElems fuel rest).map (fun p => (.arr p.1, p.2))
      else
        match c :: rest with
        | 't' :: 'r' :: 'u' :: 'e' :: rest2 => some (.bool true, rest2)
        | 'f' :: 'a' :: 'l' :: 's' :: 'e' :: rest2 => some (.bool false, rest2)
        | 'n' :: 'u' :: 'l' :: 'l' :: rest2 => some (.null, rest2)
        | cs2 => jpNumber cs2

def jpMembers : Nat → List Char → Option (List (String × Json) × List Char)
  | 0, _ => none
  | fuel + 1, cs =>
    match jpSkipWs cs with
    | '"' :: rest =>
      match jpStringBody fuel rest with
      | none => none
      | some (kcs, rest2) =>
        match jpSkipWs rest2 with
        | ':' :: rest3 =>
          match jpValue fuel rest3 with
          | none => none
          | some (v, rest4) =>
            match jpSkipWs rest4 with
            | ',' :: rest5 =>
              (jpMembers fuel rest5).map (fun p => ((String.mk kcs, v) :: p.1, p.2))
            | '\x7d' :: rest5 => some ([(String.mk kcs, v)], rest5)
            | _ => none
        | _ => none
    | _ => none

def jpElems : Nat → List Char → Option (List Json × List Char)
  | 0, _ => none
  | fuel + 1, cs =>
    match jpValue fuel cs with
    | none => none
    | some (v, rest) =>
      match jpSkipWs rest with
      | ',' :: rest2 => (jpElems fuel rest2).map (fun p => (v :: p.1, p.2))
      | ']' :: rest2 => some ([v], rest2)
      | _ => none

end

/-- `JSON.parse` of the raw body (as `express.json()` performs it);
`none` models the rejected malformed body. -/
def jsonParse (s : String) : Option Json :=
  match jpValue (2 * s.length + 2) s.data with
  | some (j, rest) => if jpSkipWs rest = [] then some j else none
  | none => none

/-! ## Field access on parsed bodies (JS member access with `|| default`) -/
def Json.getField (j : Json) (k : String) : Option Json :=
  match j with
  | .obj fs => (fs.find? (fun p => p.1 == k)).map Prod.snd
  | _ => none

/-- `obj.field || dflt` for the string fields the dispatcher reads — a
missing field, a non-string field and the empty string all fall back (the
Moralis payload carries these fields as strings). -/
def Json.getStrD (j : Json) (k dflt : String) : String :=
  match j.getField k with
  | some (.str s) => if s = "" then dflt else s
  | _ => dflt

/-- `obj.field || []` for array fields (`txs`, `erc20Transfers`). -/
def Json.getArrD (j : Json) (k : String) : List Json :=
  match j.getField k with
  | some (.arr xs) => xs
  | _ => []

/-! ## Chain configuration (src/config/index.js, not in the provided
sources)

Modelled from the spec: §4.3/§4.4 describe a static table mapping each
supported chain ticker to its provider chain identifier and display
attributes, shared by the Stream Registrar and the Alert Dispatcher.  The
table is taken as a parameter everywhere, so no concrete values are
assumed; witnesses instantiate it. -/
structure ChainCfg where
  name : String
  nativeSymbol : String
  decimals : Int
  explorer : String
  icon : String
  moralisChain : String
deriving DecidableEq

/-- JS `s || dflt` for strings (falsy on the empty string). -/
def jsOrStr (s dflt : String) : String := if s = "" then dflt else s

/-- JS `n || dflt` for numbers (falsy on 0; `NaN` cannot arise for the
table fields). -/
def jsOrInt (n dflt : Int) : Int := if n = 0 then dflt else n

/-- `CHAIN_CONFIG[ticker] || {}` followed by `cfg.field || dflt`. -/
def cfgField (cfg : Option ChainCfg) (f : ChainCfg → String) (dflt : String) : String :=
  match cfg with
  | some c => jsOrStr (f c) dflt
  | none => dflt

def cfgLookup (table : List (String × ChainCfg)) (ticker : String) : Option ChainCfg :=
  (table.find? (fun p => p.1 == ticker)).map Prod.snd

/-! ## Message formatters (src/utils/formatters.js lines 34–126) -/
def getTransactionEmoji (isIncoming : Bool) : String :=
  if isIncoming then "📥" else "📤"

/-- `formatAddress(address, short = true)` — shorten long addresses for
display. -/
def formatAddress (address : String) (short : Bool) : String :=
  if address = "" then ""
  else if short && decide (address.length > 12) then
    takeChars 6 address ++ "..." ++
      String.mk (address.data.drop (address.length - 4))
  else address

/-- JS `parseInt(s)`: optional sign then leading decimal digits; `none`
models `NaN`. -/
def jsParseInt (s : String) : Option Int :=
  match s.data.dropWhile isJsWhitespace with
  | '-' :: rest =>
    match readDigitsBase 10 (rest.takeWhile isDigitChar) with
    | some n => some (-(Int.ofNat n))
    | none => none
  | '+' :: rest =>
    match readDigitsBase 10 (rest.takeWhile isDigitChar) with
    | some n => some (Int.ofNat n)
    | none => none
  | cs =>
    match readDigitsBase 10 (cs.takeWhile isDigitChar) with
    | some n => some (Int.ofNat n)
    | none => none

/-- `formatNativeTransaction(txData, chainTicker, trackedAddress)` — the
alert text for a native-currency movement, built exactly as the template
literal does (then `.trim()`). -/
def formatNativeTransaction (table : List (String × ChainCfg)) (txData : Json)
    (chainTicker trackedAddress : String) : String :=
  let cfg := cfgLookup table chainTicker
  let chainName := cfgField cfg ChainCfg.name chainTicker
  let nativeSymbol := cfgField cfg ChainCfg.nativeSymbol chainTicker
  let decimals : Int := match cfg with
    | some c => jsOrInt c.decimals 18
    | none => 18
  let explorer := cfgField cfg ChainCfg.explorer ""
  let icon := cfgField cfg ChainCfg.icon "🔗"
  let txHash := txData.getStrD "hash" ""
  let fromAddr := toLowerStr (txData.getStrD "fromAddress" "")
  let toAddr := toLowerStr (txData.getStrD "toAddress" "")
  let value := txData.getStrD "value" "0"
  let gasPrice := txData.getStrD "gasPrice" "0"
  let gasUsed := txData.getStrD "gas" "0"
  let isIncoming := toAddr == toLowerStr trackedAddress
  let directionEmoji := getTransactionEmoji isIncoming
  let directionText := if isIncoming then "Received" else "Sent"
  let amount := formatValue value decimals
  let gasFeeStr :=
    match jsParseBigInt gasPrice, jsParseBigInt gasUsed, jsPow10 decimals with
    | some gp, some gu, some p =>
      if p = 0 then "Unknown" else toString (Int.tdiv (gp * gu) p)
    | _, _, _ => "Unknown"
  ("\n" ++ icon ++ " <b>" ++ chainName ++ " Transaction</b>\n\n" ++
    directionEmoji ++ " <b>" ++ directionText ++ "</b>\n" ++
    "💰 Amount: <code>" ++ amount ++ " " ++ nativeSymbol ++ "</code>\n\n" ++
    "📍 From: <code>" ++ formatAddress fromAddr true ++ "</code>\n" ++
    "📍 To: <code>" ++ formatAddress toAddr true ++ "</code>\n\n" ++
    "⛽ Gas Fee: <code>" ++ gasFeeStr ++ " " ++ nativeSymbol ++ "</code>\n" ++
    "🔗 <a href=\"" ++ explorer ++ "/tx/" ++ txHash ++
    "\">View on Explorer</a>\n").trim

/-- `formatTokenTransaction(txData, chainTicker, trackedAddress)` — the
alert text for one ERC-20 transfer sub-record. -/
def formatTokenTransaction (table : List (String × ChainCfg)) (txData : Json)
    (chainTicker trackedAddress : String) : String :=
  let cfg := cfgLookup table chainTicker
  let chainName := cfgField cfg ChainCfg.name chainTicker
  let explorer := cfgField cfg ChainCfg.explorer ""
  let icon := cfgField cfg ChainCfg.icon "🔗"
  let txHash := txData.getStrD "transactionHash" ""
  let fromAddr := toLowerStr (txData.getStrD "from" "")
  let toAddr := toLowerStr (txData.getStrD "to" "")
  let tokenAddress := txData.getStrD "address" ""
  let tokenName := txData.getStrD "tokenName" "Unknown Token"
  let tokenSymbol := txData.getStrD "tokenSymbol" "???"
  let value := txData.getStrD "value" "0"
  let decimalsOpt : Option Int :=
    match txData.getField "tokenDecimals" with
    | some (.str s) => if s = "" then some 18 else jsParseInt s
    | some (.num n) => some n
    | _ => some 18
  let isIncoming := toAddr == toLowerStr trackedAddress
  let directionEmoji := getTransactionEmoji isIncoming
  let directionText := if isIncoming then "Received" else "Sent"
  let amount := match decimalsOpt with
    | some dd => formatValue value dd
    | none => "0"
  ("\n" ++ icon ++ " <b>" ++ chainName ++ " Token Transaction</b>\n\n" ++
    directionEmoji ++ " <b>" ++ directionText ++ "</b>\n" ++
    "🪙 Token: <b>" ++ tokenName ++ " (" ++ tokenSymbol ++ ")</b>\n" ++
    "💰 Amount: <code>" ++ amount ++ " " ++ tokenSymbol ++ "</code>\n\n" ++
    "📍 From: <code>" ++ formatAddress fromAddr true ++ "</code>\n" ++
    "📍 To: <code>" ++ formatAddress toAddr true ++ "</code>\n\n" ++
    "🔗 <a href=\"" ++ explorer ++ "/tx/" ++ txHash ++
    "\">View on Explorer</a>\n" ++
    "📄 <a href=\"" ++ explorer ++ "/token/" ++ tokenAddress ++
    "\">Token Contract</a>\n").trim

/-! ## Alert fan-out (webhook.service.js `processTransaction`, lines
693–761)

```js
const fromAddr = (txData.fromAddress || '').toLowerCase();
const toAddr = (txData.toAddress || '').toLowerCase();
const trackedAddresses = [];
if (fromAddr) trackedAddresses.push(fromAddr);
if (toAddr) trackedAddresses.push(toAddr);
for (const address of trackedAddresses) { ... }
```

Note the collected addresses are NOT deduplicated: a transaction whose
sender equals its recipient pushes the same lowercased address twice and
the per-address work below runs twice.  A delivery is the (userId,
message) pair handed to `sendAlertToBot` (which isolates its own
failures, so every pair is attempted). -/
/-- Alerts generated for one already-resolved (ticker, lowercased address)
pair: look up the wallet, skip silently when absent or subscriber-less;
one message per ERC-20 sub-record (or one native message) delivered to
every subscriber. -/
def deliveriesForAddress (table : List (String × ChainCfg)) (store : List Wallet)
    (webhookData txData : Json) (ticker addr : String) : List (Int × String) :=
  match findWallet store ticker addr with
  | none => []
  | some w =>
    if w.trackingUserIds = [] then []
    else
      match webhookData.getArrD "erc20Transfers" with
      | [] =>
        w.trackingUserIds.map (fun u => (u, formatNativeTransaction table txData ticker addr))
      | tr0 :: trs =>
        (tr0 :: trs).flatMap (fun tr =>
          w.trackingUserIds.map (fun u => (u, formatTokenTransaction table tr ticker addr)))

/-- Chain-id resolution: first table entry whose `moralisChain` equals the
event's `chainId`. -/
def resolveTicker (table : List (String × ChainCfg)) (chainId : String) : Option String :=
  (table.find? (fun p => p.2.moralisChain == chainId)).map Prod.fst

/-- `processTransaction(txData, webhookData)`: the deliveries produced for
one transaction of one webhook event. -/
def processTransaction (table : List (String × ChainCfg)) (store : List Wallet)
    (webhookData txData : Json) : List (Int × String) :=
  let chainId := webhookData.getStrD "chainId" ""
  match resolveTicker table chainId with
  | none => []
  | some ticker =>
    let fromAddr := toLowerStr (txData.getStrD "fromAddress" "")
    let toAddr := toLowerStr (txData.getStrD "toAddress" "")
    (if fromAddr ≠ "" then deliveriesForAddress table store webhookData txData ticker fromAddr
     else []) ++
    (if toAddr ≠ "" then deliveriesForAddress table store webhookData txData ticker toAddr
     else [])

/-! ## Concrete dispatch scenario used by the C2 theorems -/
def cexTable : List (String × ChainCfg) :=
  [("ETH", ⟨"Ethereum", "ETH", 18, "https://etherscan.io", "🔷", "0x1"⟩)]

def cexStore : List Wallet :=
  [⟨"0xaaaaaaaaaaaaaaaaaaaaaaaaaaaaaaaaaaaaaaaa", "ETH", none, [7], some "s1"⟩]

def cexWebhookData : Json :=
  .obj [("chainId", .str "0x1"), ("tag", .str "t")]

def cexSelfTx : Json :=
  .obj [("hash", .str "0xh1"),
        ("fromAddress", .str "0xAAAAAAAAAAAAAAAAAAAAAAAAAAAAAAAAAAAAAAAA"),
        ("toAddress", .str "0xAAAAAAAAAAAAAAAAAAAAAAAAAAAAAAAAAAAAAAAA"),
        ("value", .str "1000000000000000000"),
        ("gasPrice", .str "1000000000"),
        ("gas", .str "21000")]

/-! ## HMAC-SHA256 (node `crypto` as used by `verifyWebhookSignature`)

An executable FIPS-180-4 SHA-256 over byte lists (`Nat` values < 256) and
RFC 2104 HMAC, with UTF-8 encoding of the secret and message strings —
exactly what `crypto.createHmac('sha256', secret).update(text).digest('hex')`
computes.  All recursion is structural so digests evaluate in the kernel.
-/
def w32 (n : Nat) : Nat := n % 4294967296

def rotr32 (n x : Nat) : Nat := w32 ((x >>> n) ||| (x <<< (32 - n)))

def shaNot (x : Nat) : Nat := 4294967295 ^^^ x

def shaCh (x y z : Nat) : Nat := (x &&& y) ^^^ (shaNot x &&& z)

def shaMaj (x y z : Nat) : Nat := (x &&& y) ^^^ (x &&& z) ^^^ (y &&& z)

def bigSigma0 (x : Nat) : Nat := rotr32 2 x ^^^ rotr32 13 x ^^^ rotr32 22 x

def bigSigma1 (x : Nat) : Nat := rotr32 6 x ^^^ rotr32 11 x ^^^ rotr32 25 x

def smallSigma0 (x : Nat) : Nat := rotr32 7 x ^^^ rotr32 18 x ^^^ (x >>> 3)

def smallSigma1 (x : Nat) : Nat := rotr32 17 x ^^^ rotr32 19 x ^^^ (x >>> 10)

def shaK : List Nat :=
  [1116352408, 1899447441, 3049323471, 3921009573, 961987163,
   1508970993, 2453635748, 2870763221, 3624381080, 310598401,
   607225278, 1426881987, 1925078388, 2162078206, 2614888103,
   3248222580, 3835390401, 4022224774, 264347078, 604807628,
   770255983, 1249150122, 1555081692, 1996064986, 2554220882,
   2821834349, 2952996808, 3210313671, 3336571891, 3584528711,
   113926993, 338241895, 666307205, 773529912, 1294757372,
   1396182291, 1695183700, 1986661051, 2177026350, 2456956037,
   2730485921, 2820302411, 3259730800, 3345764771, 3516065817,
   3600352804, 4094571909, 275423344, 430227734, 506948616,
   659060556, 883997877, 958139571, 1322822218, 1537002063,
   1747873779, 1955562222, 2024104815, 2227730452, 2361852424,
   2428436474, 2756734187, 3204031479, 3329325298]

def shaH0 : List Nat :=
  [1779033703, 3144134277, 1013904242, 2773480762, 1359893119,
   2600822924, 528734635, 1541459225]

def shaExtend : Nat → List Nat → List Nat
  | 0, ws => ws
  | n + 1, ws =>
    let len := ws.length
    let next := w32 (smallSigma1 (ws.getD (len - 2) 0) + ws.getD (len - 7) 0 +
      smallSigma0 (ws.getD (len - 15) 0) + ws.getD (len - 16) 0)
    shaExtend n (ws ++ [next])

structure Sha256State where
  a : Nat
  b : Nat
  c : Nat
  d : Nat
  e : Nat
  f : Nat
  g : Nat
  hh : Nat

def shaRound (st : Sha256State) (kw : Nat × Nat) : Sha256State :=
  let t1 := w32 (st.hh + bigSigma1 st.e + shaCh st.e st.f st.g + kw.1 + kw.2)
  let t2 := w32 (bigSigma0 st.a + shaMaj st.a st.b st.c)
  ⟨w32 (t1 + t2), st.a, st.b, st.c, w32 (st.d + t1), st.e, st.f, st.g⟩

def shaCompress (hs : List Nat) (block : List Nat) : List Nat :=
  let ws := shaExtend 48 block
  let init : Sha256State :=
    ⟨hs.getD 0 0, hs.getD 1 0, hs.getD 2 0, hs.getD 3 0,
     hs.getD 4 0, hs.getD 5 0, hs.getD 6 0, hs.getD 7 0⟩
  let fin := (shaK.zip ws).foldl shaRound init
  [w32 (hs.getD 0 0 + fin.a), w32 (hs.getD 1 0 + fin.b), w32 (hs.getD 2 0 + fin.c),
   w32 (hs.getD 3 0 + fin.d), w32 (hs.getD 4 0 + fin.e), w32 (hs.getD 5 0 + fin.f),
   w32 (hs.getD 6 0 + fin.g), w32 (hs.getD 7 0 + fin.hh)]

def toBytesBE (k n : Nat) : List Nat :=
  (List.range k).map (fun i => (n >>> (8 * (k - 1 - i))) % 256)

def sha256Pad (msg : List Nat) : List Nat :=
  msg ++ [128] ++ List.replicate ((119 - msg.length % 64) % 64) 0 ++
    toBytesBE 8 (8 * msg.length)

def chunks64Aux : Nat → List Nat → List (List Nat)
  | 0, _ => []
  | _ + 1, [] => []
  | fuel + 1, l => l.take 64 :: chunks64Aux fuel (l.drop 64)

def chunks64 (l : List Nat) : List (List Nat) := chunks64Aux l.length l

def bytesToWords : List Nat → List Nat
  | b0 :: b1 :: b2 :: b3 :: rest =>
    ((b0 <<< 24) ||| (b1 <<< 16) ||| (b2 <<< 8) ||| b3) :: bytesToWords rest
  | _ => []

def sha256Bytes (msg : List Nat) : List Nat :=
  let blocks := chunks64 (sha256Pad msg)
  let hs := blocks.foldl (fun acc b => shaCompress acc (bytesToWords b)) shaH0
  hs.flatMap (toBytesBE 4)

def utf8Encode (s : String) : List Nat :=
  s.data.flatMap (fun c =>
    let n := c.toNat
    if n < 128 then [n]
    else if n < 2048 then [192 + n / 64, 128 + n % 64]
    else if n < 65536 then [224 + n / 4096, 128 + (n / 64) % 64, 128 + n % 64]
    else [240 + n / 262144, 128 + (n / 4096) % 64, 128 + (n / 64) % 64, 128 + n % 64])

def bytesToHex (bs : List Nat) : String :=
  String.mk (bs.flatMap (fun b => [hexDigitChar (b / 16), hexDigitChar (b % 16)]))

def hmacSha256 (key msg : List Nat) : List Nat :=
  let k0 := if 64 < key.length then sha256Bytes key else key
  let kPad := k0 ++ List.replicate (64 - k0.length) 0
  sha256Bytes ((kPad.map (fun b => b ^^^ 92)) ++
    sha256Bytes ((kPad.map (fun b => b ^^^ 54)) ++ msg))

def hmacSha256Hex (key msg : String) : String :=
  bytesToHex (hmacSha256 (utf8Encode key) (utf8Encode msg))

/-! ## Webhook endpoint (webhook.service.js lines 644–810)

```js
function verifyWebhookSignature(body, signature) {
  try {
    const expectedSignature = crypto
      .createHmac('sha256', config.moralis.webhookSecret)
      .update(JSON.stringify(body))
      .digest('hex');
    return crypto.timingSafeEqual(Buffer.from(signature), Buffer.from(expectedSignature));
  } catch (error) { return false; }
}
```

The HMAC is recomputed over `JSON.stringify(req.body)` — the RE-SERIALIZED
parsed body — not over the raw received bytes (which `express.json()` has
already consumed).  `timingSafeEqual` on the UTF-8 buffers is `true` iff
the strings are equal; its length-mismatch throw is caught and yields
`false`, so the whole check is string equality with the expected hex. -/
def verifyWebhookSignature (secret : String) (body : Json) (signature : String) : Bool :=
  signature == hmacSha256Hex secret (Json.stringify body)

structure WebhookResult where
  status : Nat
  deliveries : List (Int × String)
deriving DecidableEq

/-- The `app.post(config.server.webhookPath)` handler: a missing
`x-signature` header is acknowledged as a connectivity probe (200, nothing
processed); a malformed body is rejected by `express.json()` before the
route runs (400); a bad signature is rejected with 401 and zero
deliveries; otherwise every transaction in `txs` is processed and the
produced alerts dispatched. -/
def webhookHandler (table : List (String × ChainCfg)) (store : List Wallet)
    (secret raw : String) (sigHeader : Option String) : WebhookResult :=
  match sigHeader with
  | none => ⟨200, []⟩
  | some sig =>
    match jsonParse raw with
    | none => ⟨400, []⟩
    | some body =>
      if verifyWebhookSignature secret body sig then
        match body.getArrD "txs" with
        | [] => ⟨200, []⟩
        | tx0 :: txs => ⟨200, (tx0 :: txs).flatMap (processTransaction table store body)⟩
      else ⟨401, []⟩

def c3Secret : String := "whsec_demo"

/-- A body with whitespace between tokens: it parses to `c3Body` but
`JSON.stringify(c3Body)` is the compact form, a different byte string. -/
def c3Raw : String := "\x7b \"chainId\": \"0x1\", \"txs\": [] \x7d"

def c3Body : Json := .obj [("chainId", .str "0x1"), ("txs", .arr [])]

example : formatValue "1500000000000000000" 18 = "1.5" := by decide

example : formatValue "1000000000000000000" 18 = "1" := by decide

example : formatValue "1000000000000000001" 18 = "1" := by decide

example : specExactRendering 1000000000000000001 18 = "1.000000000000000001" := by decide

example : formatValue "abc" 18 = "0" := by decide

example : formatValue "" 18 = "0" := by decide

example : formatValue "0x10" 0 = "16" := by decide

example : formatValue "5" (-1) = "0" := by decide

example : roundToDouble (10 ^ 23) = 99999999999999991611392 := by decide

example :
    runOps ["ETH"] [.trk 1 "ETH" "0xAb" none (some "s1"), .trk 2 "ETH" "0xab" none (some "s2")]
      = [⟨"0xab", "ETH", none, [1, 2], some "s1"⟩] := by decide

example :
    runOps ["ETH"] [.trk 1 "ETH" "0xAb" none (some "s1"), .untrk 1 "ETH" "0xAB" true]
      = [] := by decide

example :
    (untrack ["ETH"] false 1 "ETH" "0xAb"
        [⟨"0xab", "ETH", none, [1], some "s1"⟩]).deleteCalls = [("s1", false)] := by decide

theorem isKey_iff {c key : String} {w : Wallet} :
    isKey c key w = true ↔ w.address = key ∧ w.chainTicker = c := by
  simp [isKey]

theorem findWallet_some {st : List Wallet} {c key : String} {w : Wallet}
    (h : findWallet st c key = some w) :
    w ∈ st ∧ w.address = key ∧ w.chainTicker = c :=
  ⟨List.mem_of_find?_eq_some h, isKey_iff.1 (List.find?_some h)⟩

theorem findWallet_none {st : List Wallet} {c key : String} :
    findWallet st c key = none ↔
      ∀ w ∈ st, ¬ (w.address = key ∧ w.chainTicker = c) := by
  simp [findWallet, List.find?_eq_none, isKey]

theorem mem_replaceFirst {c key : String} {w' : Wallet} {st : List Wallet} :
    ∀ {x : Wallet}, x ∈ replaceFirst c key w' st → x ∈ st ∨ x = w' := by
  induction st with
  | nil => intro x h; simp [replaceFirst] at h
  | cons a as ih =>
    intro x h
    by_cases ha : isKey c key a = true
    · rw [replaceFirst, if_pos ha] at h
      rcases List.mem_cons.1 h with h | h
      · exact Or.inr h
      · exact Or.inl (List.mem_cons_of_mem _ h)
    · rw [replaceFirst, if_neg ha] at h
      rcases List.mem_cons.1 h with h | h
      · exact Or.inl (h ▸ List.mem_cons_self _ _)
      · rcases ih h with h' | h'
        · exact Or.inl (List.mem_cons_of_mem _ h')
        · exact Or.inr h'

theorem pairwise_replaceFirst {c key : String} {w' : Wallet} {st : List Wallet}
    (hp : st.Pairwise keyDistinct) (hw : w'.address = key ∧ w'.chainTicker = c) :
    (replaceFirst c key w' st).Pairwise keyDistinct := by
  induction st with
  | nil => simpa [replaceFirst] using hp
  | cons a as ih =>
    rcases List.pairwise_cons.1 hp with ⟨ha, hp'⟩
    by_cases hk : isKey c key a = true
    · simp only [replaceFirst, hk, if_true]
      refine List.pairwise_cons.2 ⟨fun y hy => ?_, hp'⟩
      have hka := isKey_iff.1 hk
      intro hcon
      exact ha y hy ⟨(hka.1.trans hw.1.symm) ▸ hcon.1,
        (hka.2.trans hw.2.symm) ▸ hcon.2⟩
    · simp only [replaceFirst, hk, Bool.false_eq_true, if_false]
      refine List.pairwise_cons.2 ⟨fun y hy => ?_, ih hp'⟩
      rcases mem_replaceFirst hy with h' | h'
      · exact ha y h'
      · subst h'
        intro hcon
        exact hk (isKey_iff.2 ⟨hcon.1.trans hw.1, hcon.2.trans hw.2⟩)

theorem removeFirst_sublist (c key : String) (st : List Wallet) :
    (removeFirst c key st).Sublist st := by
  induction st with
  | nil => simp [removeFirst]
  | cons a as ih =>
    by_cases hk : isKey c key a = true
    · simp only [removeFirst, hk, if_true]
      exact List.sublist_cons_of_sublist a (List.Sublist.refl as)
    · simp only [removeFirst, hk, Bool.false_eq_true, if_false]
      exact List.Sublist.cons₂ a ih

theorem findWallet_replaceFirst_self {c key : String} {w w' : Wallet}
    {st : List Wallet} (hfind : findWallet st c key = some w)
    (hw : w'.address = key ∧ w'.chainTicker = c) :
    findWallet (replaceFirst c key w' st) c key = some w' := by
  induction st with
  | nil => simp [findWallet] at hfind
  | cons a as ih =>
    by_cases hk : isKey c key a = true
    · simp [replaceFirst, hk, findWallet, List.find?, isKey_iff.2 hw]
    · have hfind' : findWallet as c key = some w := by
        simpa [findWallet, List.find?, hk] using hfind
      simpa [replaceFirst, hk, findWallet, List.find?] using ih hfind'

theorem findWallet_removeFirst_none {c key : String} {st : List Wallet}
    (hp : st.Pairwise keyDistinct) :
    findWallet (removeFirst c key st) c key = none := by
  induction st with
  | nil => simp [removeFirst, findWallet]
  | cons a as ih =>
    rcases List.pairwise_cons.1 hp with ⟨ha, hp'⟩
    by_cases hk : isKey c key a = true
    · simp only [removeFirst, hk, if_true]
      refine findWallet_none.2 fun y hy hcon => ?_
      have hka := isKey_iff.1 hk
      exact ha y hy ⟨hka.1.trans hcon.1.symm, hka.2.trans hcon.2.symm⟩
    · simp only [removeFirst, hk, Bool.false_eq_true, if_false]
      simpa [findWallet, List.find?, hk] using ih hp'

theorem countKey_le_one {st : List Wallet} {c key : String}
    (hp : st.Pairwise keyDistinct) : countKey st c key ≤ 1 := by
  induction st with
  | nil => simp [countKey]
  | cons a as ih =>
    rcases List.pairwise_cons.1 hp with ⟨ha, hp'⟩
    by_cases hk : isKey c key a = true
    · have hnil : as.filter (isKey c key) = [] := by
        refine List.filter_eq_nil.2 fun y hy => ?_
        intro hky
        have hka := isKey_iff.1 hk
        have hkyy := isKey_iff.1 hky
        exact ha y hy ⟨hka.1.trans hkyy.1.symm, hka.2.trans hkyy.2.symm⟩
      simp [countKey, List.filter, hk, hnil]
    · simpa [countKey, List.filter, hk] using ih hp'

theorem countKey_pos_of_find {st : List Wallet} {c key : String} {w : Wallet}
    (h : findWallet st c key = some w) : 1 ≤ countKey st c key := by
  have hmem : w ∈ st.filter (isKey c key) :=
    List.mem_filter.2 ⟨List.mem_of_find?_eq_some h, List.find?_some h⟩
  have : st.filter (isKey c key) ≠ [] := by
    intro hnil; rw [hnil] at hmem; simp at hmem
  exact Nat.one_le_iff_ne_zero.2 (fun h0 => this (List.length_eq_zero.1 h0))

theorem countKey_eq_zero_of_find_none {st : List Wallet} {c key : String}
    (h : findWallet st c key = none) : countKey st c key = 0 := by
  have hall := List.find?_eq_none.1 h
  have : st.filter (isKey c key) = [] :=
    List.filter_eq_nil.2 fun y hy hky => hall y hy hky
  simp [countKey, this]

theorem countKey_replaceFirst {c key : String} {w' : Wallet} {st : List Wallet}
    (hw : isKey c key w' = true) :
    countKey (replaceFirst c key w' st) c key = countKey st c key := by
  induction st with
  | nil => simp [replaceFirst]
  | cons a as ih =>
    by_cases hk : isKey c key a = true
    · rw [replaceFirst, if_pos hk]
      simp [countKey, List.filter, hk, hw]
    · rw [replaceFirst, if_neg hk]
      simpa [countKey, List.filter, hk] using ih

theorem countKey_append_single {st : List Wallet} {w' : Wallet} {c key : String}
    (hw : isKey c key w' = true) :
    countKey (st ++ [w']) c key = countKey st c key + 1 := by
  simp [countKey, List.filter_append, List.filter, hw]

/-! Characterization lemmas: each handler branch as an equation. -/
theorem track_eq_unsupported {supported : List String} {r : Option String}
    {u : Int} {c a : String} {al : Option String} {st : List Wallet}
    (hcm : supported.contains c = false) :
    track supported r u c a al st = ⟨st, .unsupportedChain, []⟩ := by
  unfold track
  rw [hcm]
  simp

theorem track_eq_already {supported : List String} {r : Option String}
    {u : Int} {c a : String} {al : Option String} {st : List Wallet} {w : Wallet}
    (hcm : supported.contains c = true)
    (hfw : findWallet st c (toLowerStr a) = some w)
    (hu : w.trackingUserIds.contains u = true) :
    track supported r u c a al st = ⟨st, .alreadyTracking, []⟩ := by
  unfold track
  rw [hcm]
  simp only [Bool.true_eq_false, if_false]
  rw [hfw]
  simp only
  rw [hu]
  simp only [if_true]

theorem track_eq_added {supported : List String} {r : Option String}
    {u : Int} {c a : String} {al : Option String} {st : List Wallet} {w : Wallet}
    (hcm : supported.contains c = true)
    (hfw : findWallet st c (toLowerStr a) = some w)
    (hu : w.trackingUserIds.contains u = false) :
    track supported r u c a al st =
      ⟨replaceFirst c (toLowerStr a)
          { w with trackingUserIds := w.trackingUserIds ++ [u] } st,
        .addedExisting, []⟩ := by
  unfold track
  rw [hcm]
  simp only [Bool.true_eq_false, if_false]
  rw [hfw]
  simp only
  rw [hu]
  simp only [Bool.false_eq_true, if_false]

theorem track_eq_failed {supported : List String}
    {u : Int} {c a : String} {al : Option String} {st : List Wallet}
    (hcm : supported.contains c = true)
    (hfw : findWallet st c (toLowerStr a) = none) :
    track supported none u c a al st = ⟨st, .streamFailed, [(a, c)]⟩ := by
  unfold track
  rw [hcm]
  simp only [Bool.true_eq_false, if_false]
  rw [hfw]

theorem track_eq_created {supported : List String} {sid : String}
    {u : Int} {c a : String} {al : Option String} {st : List Wallet}
    (hcm : supported.contains c = true)
    (hfw : findWallet st c (toLowerStr a) = none) :
    track supported (some sid) u c a al st =
      ⟨st ++ [⟨toLowerStr a, c, al, [u], some sid⟩], .createdNew, [(a, c)]⟩ := by
  unfold track
  rw [hcm]
  simp only [Bool.true_eq_false, if_false]
  rw [hfw]

theorem untrack_eq_unsupported {supported : List String} {dOk : Bool} {u : Int}
    {c a : String} {st : List Wallet}
    (hcm : supported.contains c = false) :
    untrack supported dOk u c a st = ⟨st, .invalidAddress, []⟩ := by
  unfold untrack
  rw [hcm]
  simp

theorem untrack_eq_missing {supported : List String} {dOk : Bool} {u : Int}
    {c a : String} {st : List Wallet}
    (hcm : supported.contains c = true)
    (hfw : findWallet st c (toLowerStr a) = none) :
    untrack supported dOk u c a st = ⟨st, .notTracking, []⟩ := by
  unfold untrack
  rw [hcm]
  simp only [Bool.true_eq_false, if_false]
  rw [hfw]

theorem untrack_eq_notTracking {supported : List String} {dOk : Bool} {u : Int}
    {c a : String} {st : List Wallet} {w : Wallet}
    (hcm : supported.contains c = true)
    (hfw : findWallet st c (toLowerStr a) = some w)
    (hu : w.trackingUserIds.contains u = false) :
    untrack supported dOk u c a st = ⟨st, .notTracking, []⟩ := by
  unfold untrack
  rw [hcm]
  simp only [Bool.true_eq_false, if_false]
  rw [hfw]
  simp only
  rw [hu]
  simp only [if_true]

theorem untrack_eq_deleted {supported : List String} {dOk : Bool} {u : Int}
    {c a : String} {st : List Wallet} {w : Wallet}
    (hcm : supported.contains c = true)
    (hfw : findWallet st c (toLowerStr a) = some w)
    (hu : w.trackingUserIds.contains u = true)
    (hrem : w.trackingUserIds.filter (fun i => i ≠ u) = []) :
    untrack supported dOk u c a st =
      ⟨removeFirst c (toLowerStr a) st, .removedDeleted,
        match w.moralisStreamId with
        | some sid => [(sid, c == "SOL")]
        | none => []⟩ := by
  unfold untrack
  rw [hcm]
  simp only [Bool.true_eq_false, if_false]
  rw [hfw]
  simp only
  rw [hu]
  simp only [Bool.true_eq_false, if_false]
  rw [if_pos hrem]

theorem untrack_eq_kept {supported : List String} {dOk : Bool} {u : Int}
    {c a : String} {st : List Wallet} {w : Wallet}
    (hcm : supported.contains c = true)
    (hfw : findWallet st c (toLowerStr a) = some w)
    (hu : w.trackingUserIds.contains u = true)
    (hrem : ¬ w.trackingUserIds.filter (fun i => i ≠ u) = []) :
    untrack supported dOk u c a st =
      ⟨replaceFirst c (toLowerStr a)
          { w with trackingUserIds := w.trackingUserIds.filter (fun i => i ≠ u) } st,
        .removedKept, []⟩ := by
  unfold untrack
  rw [hcm]
  simp only [Bool.true_eq_false, if_false]
  rw [hfw]
  simp only
  rw [hu]
  simp only [Bool.true_eq_false, if_false]
  rw [if_neg hrem]

/-! Step preservation of the invariants. -/
theorem goodStore_track {supported : List String} {r : Option String} {u : Int}
    {c a : String} {al : Option String} {st : List Wallet}
    (h : goodStore supported st) :
    goodStore supported (track supported r u c a al st).store := by
  rcases h with ⟨hg, hp⟩
  cases hcm : supported.contains c with
  | false => rw [track_eq_unsupported hcm]; exact ⟨hg, hp⟩
  | true =>
    cases hfw : findWallet st c (toLowerStr a) with
    | some w =>
      cases hu : w.trackingUserIds.contains u with
      | true => rw [track_eq_already hcm hfw hu]; exact ⟨hg, hp⟩
      | false =>
        rw [track_eq_added hcm hfw hu]
        have hkey := (findWallet_some hfw).2
        have hgw := hg w (findWallet_some hfw).1
        refine ⟨fun x hx => ?_, pairwise_replaceFirst hp hkey⟩
        rcases mem_replaceFirst hx with hx' | hx'
        · exact hg x hx'
        · subst hx'
          exact ⟨by simp, hgw.2.1, hgw.2.2⟩
    | none =>
      cases r with
      | none => rw [track_eq_failed hcm hfw]; exact ⟨hg, hp⟩
      | some sid =>
        rw [track_eq_created hcm hfw]
        constructor
        · intro x hx
          rcases List.mem_append.1 hx with hx' | hx'
          · exact hg x hx'
          · have hx'' : x = ⟨toLowerStr a, c, al, [u], some sid⟩ := by
              simpa using hx'
            subst hx''
            exact ⟨by simp, by simp, hcm⟩
        · rw [List.pairwise_append]
          refine ⟨hp, by simp [List.pairwise_cons], ?_⟩
          intro x hx y hy
          have hy' : y = ⟨toLowerStr a, c, al, [u], some sid⟩ := by simpa using hy
          subst hy'
          have hall := findWallet_none.1 hfw x hx
          intro hcon
          exact hall ⟨hcon.1, hcon.2⟩

theorem goodStore_untrack {supported : List String} {dOk : Bool} {u : Int}
    {c a : String} {st : List Wallet}
    (h : goodStore supported st) :
    goodStore supported (untrack supported dOk u c a st).store := by
  rcases h with ⟨hg, hp⟩
  cases hcm : supported.contains c with
  | false => rw [untrack_eq_unsupported hcm]; exact ⟨hg, hp⟩
  | true =>
    cases hfw : findWallet st c (toLowerStr a) with
    | none => rw [untrack_eq_missing hcm hfw]; exact ⟨hg, hp⟩
    | some w =>
      cases hu : w.trackingUserIds.contains u with
      | false => rw [untrack_eq_notTracking hcm hfw hu]; exact ⟨hg, hp⟩
      | true =>
        have hgw := hg w (findWallet_some hfw).1
        have hkey := (findWallet_some hfw).2
        by_cases hrem : w.trackingUserIds.filter (fun i => i ≠ u) = []
        · rw [untrack_eq_deleted hcm hfw hu hrem]
          exact ⟨fun x hx => hg x ((removeFirst_sublist _ _ _).mem hx),
            hp.sublist (removeFirst_sublist _ _ _)⟩
        · rw [untrack_eq_kept hcm hfw hu hrem]
          refine ⟨fun x hx => ?_, pairwise_replaceFirst hp hkey⟩
          rcases mem_replaceFirst hx with hx' | hx'
          · exact hg x hx'
          · subst hx'
            exact ⟨hrem, hgw.2.1, hgw.2.2⟩

theorem goodStore_step {supported : List String} {st : List Wallet} {op : Op}
    (h : goodStore supported st) : goodStore supported (stepOp supported st op) := by
  cases op with
  | trk u c a al r => exact goodStore_track h
  | untrk u c a d => exact goodStore_untrack h

/-- A fold preserves any invariant its step preserves. -/
theorem foldl_preserve {σ α : Type} (P : σ → Prop) (f : σ → α → σ)
    (hstep : ∀ s x, P s → P (f s x)) :
    ∀ (l : List α) (s : σ), P s → P (l.foldl f s) := by
  intro l
  induction l with
  | nil => intro s hs; simpa using hs
  | cons x xs ih => intro s hs; exact ih _ (hstep s x hs)

/-- Every store reachable from the empty collection satisfies the
invariants. -/
theorem goodStore_runOps (supported : List String) (ops : List Op) :
    goodStore supported (runOps supported ops) :=
  foldl_preserve (goodStore supported) (stepOp supported)
    (fun s op hs => @goodStore_step supported s op hs) ops [] ⟨by simp, by simp⟩

theorem findWallet_append_of_none {st l : List Wallet} {c key : String}
    (h : findWallet st c key = none) :
    findWallet (st ++ l) c key = findWallet l c key := by
  induction st with
  | nil => simp
  | cons x xs ih =>
    have hx : isKey c key x = false := by
      have := List.find?_eq_none.1 h x (List.mem_cons_self _ _)
      simpa using this
    have h' : findWallet xs c key = none := by
      have : findWallet (x :: xs) c key = findWallet xs c key := by
        simp [findWallet, List.find?, hx]
      rw [← this]; exact h
    calc findWallet (x :: xs ++ l) c key
        = findWallet (xs ++ l) c key := by simp [findWallet, List.find?, hx]
      _ = findWallet l c key := ih h'

theorem countKey_track_some {supported : List String} {u : Int} {c a : String}
    {al : Option String} {sid : String} {st : List Wallet}
    (hcm : supported.contains c = true) (hgood : goodStore supported st) :
    countKey (track supported (some sid) u c a al st).store c (toLowerStr a) = 1 := by
  cases hfw : findWallet st c (toLowerStr a) with
  | none =>
    rw [track_eq_created hcm hfw]
    rw [countKey_append_single (isKey_iff.2 ⟨rfl, rfl⟩)]
    rw [countKey_eq_zero_of_find_none hfw]
  | some w =>
    have hle := @countKey_le_one st c (toLowerStr a) hgood.2
    have hpos := countKey_pos_of_find hfw
    have h1 : countKey st c (toLowerStr a) = 1 := le_antisymm hle hpos
    cases hu : w.trackingUserIds.contains u with
    | true => rw [track_eq_already hcm hfw hu]; exact h1
    | false =>
      rw [track_eq_added hcm hfw hu]
      have hkey := (findWallet_some hfw).2
      have hk2 : isKey c (toLowerStr a)
          { w with trackingUserIds := w.trackingUserIds ++ [u] } = true :=
        isKey_iff.2 ⟨hkey.1, hkey.2⟩
      dsimp only
      rw [countKey_replaceFirst hk2]
      exact h1

theorem track_subscriber_mem {supported : List String} {r : Option String} {u : Int}
    {c a : String} {al : Option String} {st : List Wallet}
    (hcm : supported.contains c = true)
    (hok : findWallet st c (toLowerStr a) ≠ none ∨ r ≠ none) :
    ∃ w', findWallet (track supported r u c a al st).store c (toLowerStr a) = some w' ∧
      u ∈ w'.trackingUserIds ∧
      ∀ (v : Int) (w0 : Wallet), findWallet st c (toLowerStr a) = some w0 →
        v ∈ w0.trackingUserIds → v ∈ w'.trackingUserIds := by
  cases hfw : findWallet st c (toLowerStr a) with
  | some w =>
    cases hu : w.trackingUserIds.contains u with
    | true =>
      rw [track_eq_already hcm hfw hu]
      refine ⟨w, hfw, by simpa using hu, ?_⟩
      intro v w0 h0 hv
      cases Option.some.inj h0
      exact hv
    | false =>
      rw [track_eq_added hcm hfw hu]
      have hkey := (findWallet_some hfw).2
      refine ⟨_, findWallet_replaceFirst_self hfw ⟨hkey.1, hkey.2⟩, by simp, ?_⟩
      intro v w0 h0 hv
      cases Option.some.inj h0
      simp [hv]
  | none =>
    cases r with
    | none =>
      rcases hok with hok | hok
      · exact absurd hfw hok
      · exact absurd rfl hok
    | some sid =>
      rw [track_eq_created hcm hfw]
      refine ⟨⟨toLowerStr a, c, al, [u], some sid⟩, ?_, by simp, ?_⟩
      · rw [findWallet_append_of_none hfw]
        simp [findWallet, List.find?, isKey]
      · intro v w0 h0
        exact absurd h0 (by simp)

/-! ## Claim theorems for the subscription store -/
/-- C1: after every sequence of `/track` and `/untrack` operations (with the
external-call outcomes arbitrary), a `TrackedWallet` record for a
(chainTicker, canonicalAddress) pair exists in the store if and only if its
subscriber set `trackingUserIds` is non-empty — every record in a reachable
store carries at least one subscriber, and a missing record trivially has
no subscribers. -/
theorem c1_record_exists_iff_subscribers (supported : List String) (ops : List Op)
    (c key : String) :
    (findWallet (runOps supported ops) c key).isSome = true ↔
      ∃ w, findWallet (runOps supported ops) c key = some w ∧
        w.trackingUserIds ≠ [] := by
  constructor
  · intro h
    rcases Option.isSome_iff_exists.1 h with ⟨w, hw⟩
    exact ⟨w, hw, ((goodStore_runOps supported ops).1 w (findWallet_some hw).1).1⟩
  · rintro ⟨w, hw, -⟩
    simp [hw]

/-- C4: unsubscribing a user who tracks a wallet in a reachable store
deletes the record and issues exactly one stream-release call carrying the
stored stream id when the user was the last subscriber, and keeps the
record (with the user removed) while issuing zero stream-release calls when
other subscribers remain. -/
theorem c4_unsubscribe_stream_release (supported : List String) (ops : List Op)
    (dOk : Bool) (u : Int) (c a : String) (w : Wallet)
    (hfw : findWallet (runOps supported ops) c (toLowerStr a) = some w)
    (hu : w.trackingUserIds.contains u = true) :
    (w.trackingUserIds.filter (fun i => i ≠ u) = [] →
      ∃ sid, w.moralisStreamId = some sid ∧
        (untrack supported dOk u c a (runOps supported ops)).deleteCalls =
          [(sid, c == "SOL")] ∧
        findWallet (untrack supported dOk u c a (runOps supported ops)).store
          c (toLowerStr a) = none) ∧
    (w.trackingUserIds.filter (fun i => i ≠ u) ≠ [] →
      (untrack supported dOk u c a (runOps supported ops)).deleteCalls = [] ∧
      findWallet (untrack supported dOk u c a (runOps supported ops)).store
          c (toLowerStr a) =
        some { w with trackingUserIds := w.trackingUserIds.filter (fun i => i ≠ u) }) := by
  have hgood := goodStore_runOps supported ops
  have hkey := (findWallet_some hfw).2
  have hgw := hgood.1 w (findWallet_some hfw).1
  have hcm : supported.contains c = true := by rw [← hkey.2]; exact hgw.2.2
  constructor
  · intro hrem
    cases hsid : w.moralisStreamId with
    | none => exact absurd hsid hgw.2.1
    | some sid =>
      refine ⟨sid, rfl, ?_, ?_⟩
      · rw [untrack_eq_deleted hcm hfw hu hrem]
        simp [hsid]
      · rw [untrack_eq_deleted hcm hfw hu hrem]
        exact findWallet_removeFirst_none hgood.2
  · intro hrem
    rw [untrack_eq_kept hcm hfw hu hrem]
    exact ⟨rfl, findWallet_replaceFirst_self hfw ⟨hkey.1, hkey.2⟩⟩

/-- C4 witness: in the store reached by one `/track` of user 7, user 7's
`/untrack` is a last-subscriber removal: the record disappears and exactly
the stored stream id is released. -/
theorem c4_unsubscribe_stream_release_witness :
    ((⟨"0xab", "ETH", none, [7], some "s1"⟩ :
        Wallet).trackingUserIds.filter (fun i => i ≠ (7 : Int)) = [] →
      ∃ sid, (⟨"0xab", "ETH", none, [7], some "s1"⟩ : Wallet).moralisStreamId = some sid ∧
        (untrack ["ETH"] true 7 "ETH" "0xAb"
            (runOps ["ETH"] [.trk 7 "ETH" "0xAb" none (some "s1")])).deleteCalls =
          [(sid, "ETH" == "SOL")] ∧
        findWallet (untrack ["ETH"] true 7 "ETH" "0xAb"
            (runOps ["ETH"] [.trk 7 "ETH" "0xAb" none (some "s1")])).store
          "ETH" (toLowerStr "0xAb") = none) ∧
    ((⟨"0xab", "ETH", none, [7], some "s1"⟩ :
        Wallet).trackingUserIds.filter (fun i => i ≠ (7 : Int)) ≠ [] →
      (untrack ["ETH"] true 7 "ETH" "0xAb"
          (runOps ["ETH"] [.trk 7 "ETH" "0xAb" none (some "s1")])).deleteCalls = [] ∧
      findWallet (untrack ["ETH"] true 7 "ETH" "0xAb"
          (runOps ["ETH"] [.trk 7 "ETH" "0xAb" none (some "s1")])).store
        "ETH" (toLowerStr "0xAb") =
        some { (⟨"0xab", "ETH", none, [7], some "s1"⟩ : Wallet) with
          trackingUserIds :=
            (⟨"0xab", "ETH", none, [7], some "s1"⟩ :
              Wallet).trackingUserIds.filter (fun i => i ≠ (7 : Int)) }) :=
  c4_unsubscribe_stream_release ["ETH"] [.trk 7 "ETH" "0xAb" none (some "s1")]
    true 7 "ETH" "0xAb" ⟨"0xab", "ETH", none, [7], some "s1"⟩
    (by decide) (by decide)

/-- C5 counterexample: at the concrete input (empty store, first subscriber,
stream provisioning failing) the `/track` handler creates NO wallet record
at all — the store stays empty, refuting the claimed "pending" record with
`externalStreamId = null`; and when provisioning succeeds the record is
born with the stream id already set (never null), because the code calls
`moralisService.createStream` BEFORE writing the document. -/
theorem c5_counterexample :
    (track ["ETH"] none 1 "ETH" "0xAb" none []).store = [] ∧
    (track ["ETH"] none 1 "ETH" "0xAb" none []).outcome = .streamFailed ∧
    (track ["ETH"] (some "s1") 1 "ETH" "0xAb" none []).store =
      [⟨"0xab", "ETH", none, [1], some "s1"⟩] := by decide

/-- C5 (amended): when subscribe finds no `TrackedWallet` for the key it
provisions the external stream first; on provisioning failure it reports a
retryable error and writes no record (the store is unchanged — there is no
pending record), and on success it creates the record with subscriber set
and the returned stream id already attached. -/
theorem c5_amended_stream_before_record (supported : List String) (u : Int)
    (c a : String) (al : Option String) (st : List Wallet)
    (hcm : supported.contains c = true)
    (hfw : findWallet st c (toLowerStr a) = none) :
    track supported none u c a al st = ⟨st, .streamFailed, [(a, c)]⟩ ∧
    ∀ sid, track supported (some sid) u c a al st =
      ⟨st ++ [⟨toLowerStr a, c, al, [u], some sid⟩], .createdNew, [(a, c)]⟩ :=
  ⟨track_eq_failed hcm hfw, fun _ => track_eq_created hcm hfw⟩

/-- C5 witness: the amended behaviour at the empty store. -/
theorem c5_amended_stream_before_record_witness :
    track ["ETH"] none 1 "ETH" "0xAb" none [] =
      ⟨[], .streamFailed, [("0xAb", "ETH")]⟩ ∧
    track ["ETH"] (some "s1") 1 "ETH" "0xAb" none [] =
      ⟨[] ++ [⟨toLowerStr "0xAb", "ETH", none, [1], some "s1"⟩],
        .createdNew, [("0xAb", "ETH")]⟩ :=
  ⟨(c5_amended_stream_before_record ["ETH"] 1 "ETH" "0xAb" none []
      (by decide) (by decide)).1,
    (c5_amended_stream_before_record ["ETH"] 1 "ETH" "0xAb" none []
      (by decide) (by decide)).2 "s1"⟩

/-- C6: a second `/track` of the same (user, chain, address) is idempotent —
when the record exists and already lists the user, the handler answers
"already tracking", leaves the store (hence the subscriber set and the rest
of the record) unchanged, and issues no external stream-creation call. -/
theorem c6_subscribe_idempotent (supported : List String) (r : Option String)
    (u : Int) (c a : String) (al : Option String) (st : List Wallet) (w : Wallet)
    (hcm : supported.contains c = true)
    (hfw : findWallet st c (toLowerStr a) = some w)
    (hu : w.trackingUserIds.contains u = true) :
    (track supported r u c a al st).store = st ∧
    (track supported r u c a al st).outcome = .alreadyTracking ∧
    (track supported r u c a al st).streamCalls = [] := by
  rw [track_eq_already hcm hfw hu]
  exact ⟨rfl, rfl, rfl⟩

/-- C6 witness: re-tracking an already tracked wallet changes nothing. -/
theorem c6_subscribe_idempotent_witness :
    (track ["ETH"] (some "s9") 7 "ETH" "0xAb" none
        [⟨"0xab", "ETH", none, [7], some "s1"⟩]).store =
      [⟨"0xab", "ETH", none, [7], some "s1"⟩] ∧
    (track ["ETH"] (some "s9") 7 "ETH" "0xAb" none
        [⟨"0xab", "ETH", none, [7], some "s1"⟩]).outcome = .alreadyTracking ∧
    (track ["ETH"] (some "s9") 7 "ETH" "0xAb" none
        [⟨"0xab", "ETH", none, [7], some "s1"⟩]).streamCalls = [] :=
  c6_subscribe_idempotent ["ETH"] (some "s9") 7 "ETH" "0xAb" none
    [⟨"0xab", "ETH", none, [7], some "s1"⟩] ⟨"0xab", "ETH", none, [7], some "s1"⟩
    (by decide) (by decide) (by decide)

/-- C8: starting from any reachable store, two subscribe operations for the
same chain and the same canonical address (as produced for two raw inputs
validating to the same canonical form) leave exactly one `TrackedWallet`
record under that key — never two — and when the first subscribe could
complete (its stream call succeeded or the record pre-existed) the single
record contains both subscribers. -/
theorem c8_same_canonical_single_record (supported : List String) (ops : List Op)
    (u1 u2 : Int) (c a : String) (al1 al2 : Option String)
    (r1 : Option String) (sid2 : String)
    (hcm : supported.contains c = true) :
    countKey (track supported (some sid2) u2 c a al2
        (track supported r1 u1 c a al1 (runOps supported ops)).store).store
      c (toLowerStr a) = 1 ∧
    (r1 ≠ none →
      ∃ w, findWallet (track supported (some sid2) u2 c a al2
            (track supported r1 u1 c a al1 (runOps supported ops)).store).store
          c (toLowerStr a) = some w ∧
        u1 ∈ w.trackingUserIds ∧ u2 ∈ w.trackingUserIds) := by
  have hgood1 : goodStore supported
      (track supported r1 u1 c a al1 (runOps supported ops)).store :=
    goodStore_track (goodStore_runOps supported ops)
  constructor
  · exact countKey_track_some hcm hgood1
  · intro hr1
    obtain ⟨w1, hfw1, hu1, -⟩ := track_subscriber_mem hcm (Or.inr hr1)
    obtain ⟨w2, hfw2, hu2, hpres⟩ :=
      track_subscriber_mem (r := some sid2) hcm (Or.inl (by rw [hfw1]; simp))
    exact ⟨w2, hfw2, hpres u1 w1 hfw1 hu1, hu2⟩

/-- C8 witness: users 1 and 2 track the same address given with different
letter cases of the same canonical form; one record with both results. -/
theorem c8_same_canonical_single_record_witness :
    countKey (track ["ETH"] (some "s2") 2 "ETH" "0xAb" none
        (track ["ETH"] (some "s1") 1 "ETH" "0xAb" none (runOps ["ETH"] [])).store).store
      "ETH" (toLowerStr "0xAb") = 1 ∧
    ((some "s1" : Option String) ≠ none →
      ∃ w, findWallet (track ["ETH"] (some "s2") 2 "ETH" "0xAb" none
            (track ["ETH"] (some "s1") 1 "ETH" "0xAb" none (runOps ["ETH"] [])).store).store
          "ETH" (toLowerStr "0xAb") = some w ∧
        (1 : Int) ∈ w.trackingUserIds ∧ (2 : Int) ∈ w.trackingUserIds) :=
  c8_same_canonical_single_record ["ETH"] [] 1 2 "ETH" "0xAb" none none
    (some "s1") "s2" (by decide)

/-- C9: when an unsubscribe removes the last subscriber in a reachable
store, the local removal always completes — the resulting store does not
depend on whether the external stream release succeeded, and the record is
gone (the user is not left "stuck tracking") for either outcome. -/
theorem c9_removal_independent_of_release (supported : List String) (ops : List Op)
    (u : Int) (c a : String) (w : Wallet)
    (hfw : findWallet (runOps supported ops) c (toLowerStr a) = some w)
    (hu : w.trackingUserIds.contains u = true)
    (hrem : w.trackingUserIds.filter (fun i => i ≠ u) = []) :
    ∀ dOk : Bool,
      (untrack supported dOk u c a (runOps supported ops)).store =
        (untrack supported true u c a (runOps supported ops)).store ∧
      findWallet (untrack supported dOk u c a (runOps supported ops)).store
        c (toLowerStr a) = none := by
  intro dOk
  have hgood := goodStore_runOps supported ops
  have hkey := (findWallet_some hfw).2
  have hgw := hgood.1 w (findWallet_some hfw).1
  have hcm : supported.contains c = true := by rw [← hkey.2]; exact hgw.2.2
  constructor
  · rw [untrack_eq_deleted hcm hfw hu hrem, untrack_eq_deleted hcm hfw hu hrem]
  · rw [untrack_eq_deleted hcm hfw hu hrem]
    exact findWallet_removeFirst_none hgood.2

/-- C9 witness: the failed-release unsubscribe still deletes the record. -/
theorem c9_removal_independent_of_release_witness :
    (untrack ["ETH"] false 7 "ETH" "0xAb"
        (runOps ["ETH"] [.trk 7 "ETH" "0xAb" none (some "s1")])).store =
      (untrack ["ETH"] true 7 "ETH" "0xAb"
        (runOps ["ETH"] [.trk 7 "ETH" "0xAb" none (some "s1")])).store ∧
    findWallet (untrack ["ETH"] false 7 "ETH" "0xAb"
        (runOps ["ETH"] [.trk 7 "ETH" "0xAb" none (some "s1")])).store
      "ETH" (toLowerStr "0xAb") = none :=
  c9_removal_independent_of_release ["ETH"] [.trk 7 "ETH" "0xAb" none (some "s1")]
    7 "ETH" "0xAb" ⟨"0xab", "ETH", none, [7], some "s1"⟩
    (by decide) (by decide) (by decide) false

/-! ## Claim theorems for `formatValue` -/
theorem dropTrailingZeros_all_zeros {s : String}
    (h : ∀ ch ∈ s.data, ch = '0') : dropTrailingZeros s = "" := by
  unfold dropTrailingZeros
  have hdrop : s.data.reverse.dropWhile (fun c => c = '0') = [] := by
    rw [List.dropWhile_eq_nil_iff]
    intro x hx
    simp [h x (List.mem_reverse.1 hx)]
  rw [hdrop]
  rfl

theorem jsPow10_exact : ∀ d : Nat, d ≤ 22 →
    jsPow10 (Int.ofNat d) = some (Int.ofNat (10 ^ d)) := by decide

/-- C7 counterexample: `formatValue` silently truncates the fractional part
to its first 8 digits (`decimalPart.slice(0, 8)` in formatters.js line 19),
so at value `"1000000000000000001"` with 18 decimals it answers `"1"` while
the exact decimal rendering of value / 10^18 demanded by the claim is
`"1.000000000000000001"`. -/
theorem c7_counterexample :
    formatValue "1000000000000000001" 18 = "1" ∧
    specExactRendering 1000000000000000001 18 = "1.000000000000000001" ∧
    formatValue "1000000000000000001" 18 ≠
      specExactRendering 1000000000000000001 18 := by
  exact ⟨by decide, by decide, by decide⟩

/-- C7 (amended): for every non-negative integer value string and every
decimals in the range 0–22 (where the JS double `10 ** decimals` is exactly
`10 ^ decimals`; beyond 22 the double exponentiation no longer yields the
exact power), `formatValue` equals the exact decimal rendering of
value / 10^decimals computed with arbitrary-precision integers with the
fractional part truncated to its first 8 digits, trailing zeros then
trimmed and the fractional part dropped entirely when empty; in particular
formatValue("1500000000000000000", 18) = "1.5" and
formatValue("1000000000000000000", 18) = "1". -/
theorem c7_amended_formatValue_trunc8 (s : String) (v d : Nat)
    (hparse : jsParseBigInt s = some (Int.ofNat v)) (hd : d ≤ 22) :
    formatValue s (Int.ofNat d) = specTrunc8Rendering v d := by
  have hts : ∀ x : Nat, toString (Int.ofNat x) = toString x := fun _ => rfl
  have htn : (Int.ofNat d).toNat = d := rfl
  have htdiv : Int.tdiv (Int.ofNat v) (Int.ofNat (10 ^ d)) = Int.ofNat (v / 10 ^ d) := rfl
  have htmod : Int.tmod (Int.ofNat v) (Int.ofNat (10 ^ d)) = Int.ofNat (v % 10 ^ d) := rfl
  have hp : ¬ (Int.ofNat (10 ^ d) = 0) := by
    simp [pow_ne_zero]
  unfold formatValue formatValueCore
  rw [hparse, jsPow10_exact d hd]
  dsimp only
  rw [if_neg hp]
  simp only [htdiv, htmod, hts, htn]
  by_cases hz : v / 10 ^ d = 0 ∧ v % 10 ^ d = 0
  · have hcond : Int.ofNat (v / 10 ^ d) = 0 ∧ Int.ofNat (v % 10 ^ d) = 0 :=
      ⟨Int.ofNat_eq_zero.mpr hz.1, Int.ofNat_eq_zero.mpr hz.2⟩
    rw [if_pos hcond]
    have hfrac : dropTrailingZeros
        (takeChars 8 (padStartZeros (toString (v % 10 ^ d)) d)) = "" := by
      apply dropTrailingZeros_all_zeros
      intro ch hch
      have hch' : ch ∈ (padStartZeros (toString (v % 10 ^ d)) d).data :=
        List.mem_of_mem_take hch
      rcases List.mem_append.1 hch' with hrep | hstr
      · exact List.eq_of_mem_replicate hrep
      · rw [hz.2] at hstr
        have h0 : (toString (0 : Nat)).data = ['0'] := rfl
        rw [h0] at hstr
        simpa using hstr
    unfold specTrunc8Rendering
    dsimp only
    rw [hfrac, if_pos rfl, hz.1]
    rfl
  · have hcond : ¬ (Int.ofNat (v / 10 ^ d) = 0 ∧ Int.ofNat (v % 10 ^ d) = 0) := by
      intro hc
      exact hz ⟨Int.ofNat_eq_zero.mp hc.1, Int.ofNat_eq_zero.mp hc.2⟩
    rw [if_neg hcond]
    unfold specTrunc8Rendering
    dsimp only
    by_cases hE : dropTrailingZeros
        (takeChars 8 (padStartZeros (toString (v % 10 ^ d)) d)) = ""
    · rw [if_neg (by simpa using hE), if_pos hE]
      rfl
    · rw [if_pos hE, if_neg hE]
      rfl

/-- C7 witness: the amended statement evaluated at the spec's own example —
value 1500000000000000000 with 18 decimals renders as "1.5". -/
theorem c7_amended_formatValue_trunc8_witness :
    formatValue "1500000000000000000" (Int.ofNat 18) =
      specTrunc8Rendering 1500000000000000000 18 ∧
    specTrunc8Rendering 1500000000000000000 18 = "1.5" :=
  ⟨c7_amended_formatValue_trunc8 "1500000000000000000" 1500000000000000000 18
      (by decide) (by decide),
    by decide⟩

/-- C10: `formatValue` is total at the dispatcher's interface — its whole
body sits in a try/catch whose handler returns "0", so whenever the
arbitrary-precision conversion of the value string or of the
`10 ** decimals` double fails (non-numeric or malformed strings, negative
or overflowing decimals), the function returns the string "0" instead of
throwing. -/
theorem c10_formatValue_zero_on_failure (value : String) (decimals : Int)
    (h : jsParseBigInt value = none ∨ jsPow10 decimals = none) :
    formatValue value decimals = "0" := by
  unfold formatValue formatValueCore
  cases hv : jsParseBigInt value with
  | none =>
    cases hp : jsPow10 decimals with
    | none => rfl
    | some p => rfl
  | some v =>
    cases hp : jsPow10 decimals with
    | none => rfl
    | some p =>
      rcases h with h | h
      · rw [hv] at h
        exact absurd h (by simp)
      · rw [hp] at h
        exact absurd h (by simp)

/-- C10 witness: a malformed webhook value string renders as "0". -/
theorem c10_formatValue_zero_on_failure_witness :
    formatValue "abc" 18 = "0" :=
  c10_formatValue_zero_on_failure "abc" 18 (Or.inl (by decide))

example : jsonParse "\x7b \"a\": [1, -2], \"b\": \"x\" \x7d" =
    some (.obj [("a", .arr [.num 1, .num (-2)]), ("b", .str "x")]) := by rfl

example : Json.stringify (.obj [("a", .arr [.num 1, .num (-2)]), ("b", .str "x")]) =
    "\x7b\"a\":[1,-2],\"b\":\"x\"\x7d" := by rfl

/-- C2 counterexample: a transaction whose sender equals its recipient (a
self-transfer of a tracked wallet with a single subscriber) produces TWO
deliveries to that subscriber within the dispatch of one event, not the
one delivery the claim states: `processTransaction` pushes `fromAddr` and
`toAddr` into `trackedAddresses` without deduplication. -/
theorem c2_counterexample :
    (processTransaction cexTable cexStore cexWebhookData cexSelfTx).length = 2 ∧
    (processTransaction cexTable cexStore cexWebhookData cexSelfTx).map Prod.fst
      = [7, 7] := by
  exact ⟨by decide, by decide⟩

/-- C2 (amended): within one dispatch the code collects the
lowercase-normalized sender and recipient addresses WITHOUT deduplication;
whenever the two normalize to the same non-empty address the per-address
delivery batch is emitted twice — each subscriber of the affected wallet
receives two deliveries for a self-transfer, not one. -/
theorem c2_amended_no_dedup (table : List (String × ChainCfg)) (store : List Wallet)
    (webhookData txData : Json) (ticker : String)
    (hticker : resolveTicker table (webhookData.getStrD "chainId" "") = some ticker)
    (heq : toLowerStr (txData.getStrD "fromAddress" "") =
      toLowerStr (txData.getStrD "toAddress" ""))
    (hne : toLowerStr (txData.getStrD "fromAddress" "") ≠ "") :
    processTransaction table store webhookData txData =
      deliveriesForAddress table store webhookData txData ticker
        (toLowerStr (txData.getStrD "fromAddress" "")) ++
      deliveriesForAddress table store webhookData txData ticker
        (toLowerStr (txData.getStrD "fromAddress" "")) := by
  unfold processTransaction
  dsimp only
  rw [hticker]
  dsimp only
  rw [← heq, if_pos hne]

/-- C2 witness: the amended statement at the concrete self-transfer. -/
theorem c2_amended_no_dedup_witness :
    processTransaction cexTable cexStore cexWebhookData cexSelfTx =
      deliveriesForAddress cexTable cexStore cexWebhookData cexSelfTx "ETH"
        (toLowerStr (cexSelfTx.getStrD "fromAddress" "")) ++
      deliveriesForAddress cexTable cexStore cexWebhookData cexSelfTx "ETH"
        (toLowerStr (cexSelfTx.getStrD "fromAddress" "")) :=
  c2_amended_no_dedup cexTable cexStore cexWebhookData cexSelfTx "ETH"
    (by rfl) (by rfl) (by decide)

/-- SHA-256 test vector (FIPS 180-4, message "abc"). -/
theorem sha256_abc_vector :
    bytesToHex (sha256Bytes (utf8Encode "abc")) =
      "ba7816bf8f01cfea414140de5dae2223b00361a396177a9cb410ff61f20015ad" := by
  decide

/-- HMAC-SHA256 test vector (RFC 4231, test case 2). -/
theorem hmac_jefe_vector :
    hmacSha256Hex "Jefe" "what do ya want for nothing?" =
      "5bdcc146bf60754e6a042426089575c75a003f089d2739839dec58b964ec3843" := by
  decide

example : jsonParse c3Raw = some c3Body := by rfl

example : Json.stringify c3Body = "\x7b\"chainId\":\"0x1\",\"txs\":[]\x7d" := by rfl

/-- C3 counterexample: a webhook request whose `x-signature` header equals
the hex HMAC-SHA256 (keyed with the pre-shared secret) over the EXACT
received byte payload is nevertheless rejected with 401 and zero
deliveries, because the dispatcher recomputes the HMAC over
`JSON.stringify(req.body)` — the re-serialized parsed body — whose bytes
differ from the received ones as soon as the sender used any whitespace.
The claimed "rejects iff the header differs from the HMAC over the exact
received bytes" is therefore false at this input. -/
theorem c3_counterexample :
    (webhookHandler cexTable cexStore c3Secret c3Raw
        (some (hmacSha256Hex c3Secret c3Raw))).status = 401 ∧
    (webhookHandler cexTable cexStore c3Secret c3Raw
        (some (hmacSha256Hex c3Secret c3Raw))).deliveries = [] := by
  decide

/-- C3 (amended): for every webhook request that carries an `x-signature`
header and whose body bytes parse as JSON, the dispatcher rejects it
(HTTP 401, zero alert deliveries) if and only if the header differs from
the hex HMAC-SHA256, keyed by the pre-shared webhook secret, computed over
`JSON.stringify` of the PARSED request body (the re-serialized body) — not
over the exact received byte payload. -/
theorem c3_amended_hmac_over_stringify (table : List (String × ChainCfg))
    (store : List Wallet) (secret raw sig : String) (body : Json)
    (hparse : jsonParse raw = some body) :
    ((webhookHandler table store secret raw (some sig)).status = 401 ∧
      (webhookHandler table store secret raw (some sig)).deliveries = []) ↔
      sig ≠ hmacSha256Hex secret (Json.stringify body) := by
  unfold webhookHandler verifyWebhookSignature
  rw [hparse]
  dsimp only
  cases hb : (sig == hmacSha256Hex secret (Json.stringify body)) with
  | true =>
    rw [if_pos rfl]
    have hEq := eq_of_beq hb
    cases htx : body.getArrD "txs" with
    | nil =>
      dsimp only
      constructor
      · rintro ⟨h401, -⟩
        exact absurd h401 (by decide)
      · intro hne
        exact absurd hEq hne
    | cons t ts =>
      dsimp only
      constructor
      · rintro ⟨h401, -⟩
        exact absurd h401 (by decide)
      · intro hne
        exact absurd hEq hne
  | false =>
    rw [if_neg (by simp)]
    constructor
    · intro
      intro hEq
      rw [hEq] at hb
      simpa using hb
    · intro
      exact ⟨rfl, rfl⟩

/-- C3 witness: a tampered signature over the parsed demo body is
rejected. -/
theorem c3_amended_hmac_over_stringify_witness :
    jsonParse c3Raw = some c3Body ∧
    (((webhookHandler cexTable cexStore c3Secret c3Raw (some "deadbeef")).status = 401 ∧
      (webhookHandler cexTable cexStore c3Secret c3Raw (some "deadbeef")).deliveries = []) ↔
      "deadbeef" ≠ hmacSha256Hex c3Secret (Json.stringify c3Body)) :=
  ⟨by rfl,
    c3_amended_hmac_over_stringify cexTable cexStore c3Secret c3Raw "deadbeef" c3Body
      (by rfl)⟩
